import Mathlib

/-!
Verification development for the printoQRBackend batch QR-generation pipeline.

The repository has two source files implementing the `POST /api/generate`
handler: `src/index.js` (chunked concurrent pipeline, referred to below as
the chunked pipeline) and `src/unnamed/part_000` (an unnamed sequential
variant, referred to below as the sequential variant).  Both are shallowly
embedded here: pure computations are translated to Lean functions,
JavaScript cell values become an inductive type, fallible rendering is
`Option`, and the event-driven resource cleanup is an explicit action list
interpreted over a file-system state.
-/

namespace PrintoQR

/-! ## Cell values and JavaScript primitives

`xlsx.utils.sheet_to_json(sheet, { header: 1 })` yields rows of untyped
scalars.  A cell read out of bounds of its row (`row[colIndex]`) is
JavaScript `undefined`.  Numeric cells are modelled as integers. -/

/-- A raw spreadsheet cell value as seen by the extraction loop. -/
inductive CellValue where
  | undefined : CellValue
  | null : CellValue
  | str : String → CellValue
  | num : Int → CellValue
  | boolean : Bool → CellValue
deriving DecidableEq, Repr

/-- `row[colIndex]` in JavaScript: out-of-range (or hole) access yields
`undefined`. -/
def cellAt (row : List CellValue) (colIndex : Nat) : CellValue :=
  (row.get? colIndex).getD .undefined

/-- The guard `serial === undefined || serial === null || serial === ''`
(src/index.js line 140, src/unnamed/part_000 line 137).  Strict equality:
only the exact values `undefined`, `null` and the empty string match. -/
def isEmptyCell : CellValue → Bool
  | .undefined => true
  | .null => true
  | .str s => s == ""
  | .num _ => false
  | .boolean _ => false

/-- JavaScript `String(v)` coercion for the cell scalars that appear here. -/
def jsString : CellValue → String
  | .str s => s
  | .num n => toString n
  | .boolean true => "true"
  | .boolean false => "false"
  | .null => "null"
  | .undefined => "undefined"

/-- The characters removed by JavaScript `String.prototype.trim`
(ECMAScript WhiteSpace and LineTerminator). -/
def isJSSpace (c : Char) : Bool :=
  c == ' ' || c == '\t' || c == '\n' || c == '\r' ||
  c == '\u000B' || c == '\u000C' || c == '\u00A0' || c == '\uFEFF' ||
  c == '\u1680' || c == '\u2000' || c == '\u2001' || c == '\u2002' ||
  c == '\u2003' || c == '\u2004' || c == '\u2005' || c == '\u2006' ||
  c == '\u2007' || c == '\u2008' || c == '\u2009' || c == '\u200A' ||
  c == '\u2028' || c == '\u2029' || c == '\u202F' || c == '\u205F' ||
  c == '\u3000'

/-- Drop trailing characters satisfying `p`. -/
def dropTrail (p : Char → Bool) (l : List Char) : List Char :=
  (l.reverse.dropWhile p).reverse

/-- `String.prototype.trim` on the underlying character list. -/
def trimChars (l : List Char) : List Char :=
  dropTrail isJSSpace (l.dropWhile isJSSpace)

/-- JavaScript `s.trim()`. -/
def jsTrim (s : String) : String :=
  ⟨trimChars s.data⟩

/-! ## Record Extractor

Translation of the extraction loop of `POST /api/generate`
(src/index.js lines 122-161, identical in src/unnamed/part_000 lines
119-158).  `seen` mirrors the JavaScript `Set` (queried with `has`,
extended with `add`); `validRecords` and `errors` mirror the arrays of the
same names; rows are numbered `i + 1` in ledger entries. -/

/-- Reasons recorded in the validation ledger, a closed set. -/
inductive Reason where
  | emptyValue : Reason
  | duplicateValue : Reason
deriving DecidableEq, Repr

/-- One entry of the validation ledger: `{ row: i + 1, error, value? }`. -/
structure LedgerEntry where
  row : Nat
  reason : Reason
  value : Option String
deriving DecidableEq, Repr

/-- The mutable state of the extraction loop. -/
structure ExtractState where
  validRecords : List String
  errors : List LedgerEntry
  seen : List String
deriving DecidableEq, Repr

/-- Initial loop state: empty arrays and an empty `Set`. -/
def initState : ExtractState := ⟨[], [], []⟩

/-- One iteration of the extraction loop (src/index.js lines 136-161) for
row index `i` (zero based). -/
def processRow (colIndex : Nat) (st : ExtractState) (i : Nat)
    (row : List CellValue) : ExtractState :=
  let serial := cellAt row colIndex
  if isEmptyCell serial then
    { st with errors := st.errors ++ [⟨i + 1, .emptyValue, none⟩] }
  else
    let serialStr := jsTrim (jsString serial)
    if st.seen.contains serialStr then
      { st with errors := st.errors ++ [⟨i + 1, .duplicateValue, some serialStr⟩] }
    else
      { st with seen := st.seen ++ [serialStr],
                validRecords := st.validRecords ++ [serialStr] }

/-- The extraction `for` loop, starting at row index `i`. -/
def extractGo (colIndex : Nat) (i : Nat) (st : ExtractState) :
    List (List CellValue) → ExtractState
  | [] => st
  | row :: rest => extractGo colIndex (i + 1) (processRow colIndex st i row) rest

/-- `startIndex` in the source is declared `0` and never changed (the
header-detection `if` block at src/index.js lines 129-134 has an empty
body), so extraction processes every row. -/
def startIndex : Nat := 0

/-- The whole extraction loop over `rawData` for a configured column. -/
def extract (rows : List (List CellValue)) (colIndex : Nat) : ExtractState :=
  extractGo colIndex startIndex initState rows

/-! ## Report Generator

Translation of the report-building block (src/index.js lines 208-218). -/

/-- The `error` string stored in a ledger entry. -/
def reasonText : Reason → String
  | .emptyValue => "Empty value"
  | .duplicateValue => "Duplicate serial"

/-- `err.value || ''`: `undefined` and the (falsy) empty string both print
as the empty string. -/
def entryValueText (e : LedgerEntry) : String :=
  match e.value with
  | some v => if v == "" then "" else v
  | none => ""

/-- One `Row <n>: <reason> (Value: "<value>")` line of the report. -/
def entryLine (e : LedgerEntry) : String :=
  "Row " ++ toString e.row ++ ": " ++ reasonText e.reason ++
    " (Value: \"" ++ entryValueText e ++ "\")\n"

/-- The full plain-text report. -/
def reportText (total success skipped : Nat) (errors : List LedgerEntry) : String :=
  "Generation Report\n=================\n" ++
  "Total Rows Processed: " ++ toString total ++ "\n" ++
  "Successful: " ++ toString success ++ "\n" ++
  "Skipped/Errors: " ++ toString skipped ++ "\n\n" ++
  (if errors.length > 0 then "Error Details:\n" ++ String.join (errors.map entryLine)
   else "")

/-! ## Archive Assembler and Batch Scheduler -/

/-- A member of the emitted zip archive: `archive.append(content, {name})`. -/
inductive Member (β : Type) where
  | text (name : String) (content : String)
  | image (name : String) (bytes : β)
deriving DecidableEq, Repr

/-- Image extension: `format === 'png' ? 'png' : 'jpg'` (src/index.js
line 390, src/unnamed/part_000 line 391). -/
def extOf (format : String) : String :=
  if format == "png" then "png" else "jpg"

/-- `CONCURRENCY_LIMIT` (src/index.js line 375). -/
def CONCURRENCY_LIMIT : Nat := 50

/-- The chunk partition produced by
`for (let i = 0; i < n; i += CONCURRENCY_LIMIT) validRecords.slice(i, i + CONCURRENCY_LIMIT)`. -/
def chunksOf {α : Type} (l : List α) : List (List α) :=
  match l with
  | [] => []
  | x :: xs =>
    (x :: xs.take (CONCURRENCY_LIMIT - 1)) :: chunksOf (xs.drop (CONCURRENCY_LIMIT - 1))
termination_by l.length
decreasing_by simp [List.length_drop]; omega

/-- `Promise.all(chunk.map(...))` (src/index.js lines 378-386): the result
array holds, at index `i`, the settled value of task `i` irrespective of
completion timing; a `processRecord` rejection is caught by the per-task
`try`/`catch` and stored as `null`, modelled as `none`. -/
def chunkResults {β : Type} (render : String → Option β) (chunk : List String) :
    List (Option (String × β)) :=
  chunk.map fun serial => (render serial).map fun buf => (serial, buf)

/-- The full archive emitted by the chunked pipeline: the report is
appended first (src/index.js line 220), then each chunk's non-null results
in result-array order (lines 374-394). -/
def archiveMembers {β : Type} (records : List String) (render : String → Option β)
    (format : String) (report : String) : List (Member β) :=
  Member.text "report.txt" report ::
    (chunksOf records).flatMap fun chunk =>
      (chunkResults render chunk).filterMap fun r =>
        r.map fun p => Member.image (p.1 ++ "." ++ extOf format) p.2

/-- The sequential variant's image loop (src/unnamed/part_000 lines
220-393): renders run one at a time with no per-record `try`/`catch`, so a
single rejection propagates to the handler's outer `catch` and
`archive.finalize()` is never reached — no completed archive is produced
(modelled as `none`; members appended before the failure have already been
streamed, but the container is abandoned). -/
def seqImages {β : Type} (render : String → Option β) (format : String) :
    List String → Option (List (Member β))
  | [] => some []
  | serial :: rest => do
      let buf ← render serial
      let others ← seqImages render format rest
      pure (Member.image (serial ++ "." ++ extOf format) buf :: others)

/-- The sequential variant's archive: report first (src/unnamed/part_000
line 217), then the per-serial loop. -/
def seqArchive {β : Type} (records : List String) (render : String → Option β)
    (format : String) (report : String) : Option (List (Member β)) :=
  (seqImages render format records).map fun imgs =>
    Member.text "report.txt" report :: imgs

/-! ## Style configuration and render-path selection -/

/-- The per-batch configuration destructured from `req.body`
(src/index.js lines 99-113) with the source's defaults.  `logoPresent`
models `logoPath !== null`; `shouldShowText` models
`showText === 'true' || showText === true`. -/
structure StyleConfig where
  width : Nat := 300
  margin : Nat := 4
  errorCorrectionLevel : String := "M"
  format : String := "jpeg"
  colorDark : String := "#000000"
  colorLight : String := "#ffffff"
  moduleStyle : String := "square"
  eyeStyle : String := "square"
  logoPresent : Bool := false
  logoSize : Nat := 20
  shouldShowText : Bool := false
deriving DecidableEq, Repr

/-- One SVG primitive pushed onto the `shapes` array.  A `<rect>` without
an `rx` attribute is recorded with corner radius `0`. -/
inductive Shape where
  | rect (x y w h rx : ℚ) (fill : String)
  | circle (cx cy r : ℚ) (fill : String)
deriving DecidableEq, Repr

/-- `isFinder(r, c)` (src/index.js lines 283-288, src/unnamed/part_000
lines 272-277): the three 7×7 corner zones. -/
def isFinder (size r c : Nat) : Bool :=
  decide ((r < 7 ∧ c < 7) ∨ (r < 7 ∧ size - 7 ≤ c) ∨ (size - 7 ≤ r ∧ c < 7))

/-- The shape drawn for one dark data module (src/index.js lines 317-323). -/
def moduleShape (cfg : StyleConfig) (r c : Nat) : Shape :=
  if cfg.moduleStyle == "dots" then
    .circle ((c : ℚ) + 0.5) ((r : ℚ) + 0.5) 0.4 cfg.colorDark
  else if cfg.moduleStyle == "rounded" then
    .rect ((c : ℚ) + 0.1) ((r : ℚ) + 0.1) 0.8 0.8 0.2 cfg.colorDark
  else
    .rect (c : ℚ) (r : ℚ) 1 1 0 cfg.colorDark

/-- The `eyes` array (src/index.js line 293): `{r, c}` of each 7×7 corner. -/
def eyePositions (size : Nat) : List (Nat × Nat) :=
  [(0, 0), (0, size - 7), (size - 7, 0)]

/-- The three concentric rectangles pushed for one eye (src/index.js lines
294-308): `x` is the eye's column, `y` its row. -/
def eyeTriple (cfg : StyleConfig) (er ec : Nat) : List Shape :=
  if cfg.eyeStyle == "rounded" then
    [ .rect (ec : ℚ) (er : ℚ) 7 7 1.5 cfg.colorDark,
      .rect ((ec : ℚ) + 1) ((er : ℚ) + 1) 5 5 1 cfg.colorLight,
      .rect ((ec : ℚ) + 2) ((er : ℚ) + 2) 3 3 0.5 cfg.colorDark ]
  else
    [ .rect (ec : ℚ) (er : ℚ) 7 7 0 cfg.colorDark,
      .rect ((ec : ℚ) + 1) ((er : ℚ) + 1) 5 5 0 cfg.colorLight,
      .rect ((ec : ℚ) + 2) ((er : ℚ) + 2) 3 3 0 cfg.colorDark ]

/-- The eye-drawing pass (src/index.js lines 292-308): three concentric
rectangles pushed for each of the three corner positions in turn. -/
def eyePass (cfg : StyleConfig) (size : Nat) : List Shape :=
  (eyePositions size).flatMap fun eye => eyeTriple cfg eye.1 eye.2

/-- The data-module pass (src/index.js lines 310-326): row-major loop over
all cells, skipping cells inside `isFinder` zones, drawing a shape for
each remaining dark module; `modules` is the row-major bit array
`qrData.modules.data` of side `size`. -/
def modulePass (cfg : StyleConfig) (size : Nat) (modules : List Bool) : List Shape :=
  (List.range size).flatMap fun r =>
    (List.range size).filterMap fun c =>
      if isFinder size r c then none
      else if modules.getD (r * size + c) false then some (moduleShape cfg r c)
      else none

/-- The `shapes` array built by the chunked pipeline's styled branch
(src/index.js lines 290-326): the explicit eye pass followed by the data
module loop. -/
def styledShapes (cfg : StyleConfig) (size : Nat) (modules : List Bool) : List Shape :=
  eyePass cfg size ++ modulePass cfg size modules

/-! ## Caption escaping -/

/-- A global single-character regex replacement,
`str.replace(/p/g, r)`. -/
def replChar (p : Char) (r : List Char) : List Char → List Char
  | [] => []
  | x :: xs => (if x == p then r else [x]) ++ replChar p r xs

/-- The `escapedSerial` chain (src/index.js lines 343-348): five global
replacements applied in source order, ampersand first. -/
def escapeSerial (s : List Char) : List Char :=
  replChar '\'' "&apos;".data
    (replChar '"' "&quot;".data
      (replChar '>' "&gt;".data
        (replChar '<' "&lt;".data
          (replChar '&' "&amp;".data s))))

/-! ## Render-path selection

`processRecord` (src/index.js lines 252-372) either renders through the
standard encoder's own bitmap renderer (`QRCode.toBuffer` /
`QRCode.toDataURL`, the fast path) or builds the styled SVG scene and
feeds it to the raster library.  The raster library calls (`sharp`
compositing, format encoding) are external; a record's render is
summarised as a `RenderPlan` describing which path ran, which shapes were
drawn, whether the precomputed logo buffers were composited, and which
escaped caption (if any) was embedded. -/

/-- Summary of how one record is rendered. -/
inductive RenderPlan where
  | fast (format : String)
  | styled (shapes : List Shape) (logoComposited : Bool)
      (caption : Option (List Char)) (format : String)
deriving DecidableEq, Repr

/-- The chunked pipeline's fast-path condition (src/index.js line 256):
`moduleStyle === 'square' && eyeStyle === 'square' && !logoPath && !shouldShowText`. -/
def fastPath (cfg : StyleConfig) : Bool :=
  cfg.moduleStyle == "square" && cfg.eyeStyle == "square" &&
    !cfg.logoPresent && !cfg.shouldShowText

/-- `processRecord` in the chunked pipeline, as a render plan.  On the
styled branch the logo is composited exactly when `logoPath` is set
(line 335) and the caption band embeds `escapedSerial` exactly when
`shouldShowText` (line 342). -/
def processRecordPlan (cfg : StyleConfig) (size : Nat) (modules : List Bool)
    (serial : String) : RenderPlan :=
  if fastPath cfg then .fast cfg.format
  else
    .styled (styledShapes cfg size modules) cfg.logoPresent
      (if cfg.shouldShowText then some (escapeSerial serial.data) else none)
      cfg.format

/-- The sequential variant's fast-path condition (src/unnamed/part_000
line 237): `moduleStyle === 'square' && eyeStyle === 'square'` — no logo
or caption test. -/
def fastPathSeq (cfg : StyleConfig) : Bool :=
  cfg.moduleStyle == "square" && cfg.eyeStyle == "square"

/-- `shapeStyle` in the sequential variant's per-pixel loop
(src/unnamed/part_000 line 340): a finder cell is drawn square when the
eye style is square, otherwise every cell uses the module style. -/
def seqCellStyle (cfg : StyleConfig) (isF : Bool) : String :=
  if isF && cfg.eyeStyle == "square" then "square" else cfg.moduleStyle

/-- The single shape emitted for one dark cell in the sequential variant
(src/unnamed/part_000 lines 342-349). -/
def seqCellShape (style : String) (cfg : StyleConfig) (r c : Nat) : Shape :=
  if style == "dots" then
    .circle ((c : ℚ) + 0.5) ((r : ℚ) + 0.5) 0.4 cfg.colorDark
  else if style == "rounded" then
    .rect ((c : ℚ) + 0.1) ((r : ℚ) + 0.1) 0.8 0.8 0.2 cfg.colorDark
  else
    .rect (c : ℚ) (r : ℚ) 1 1 0 cfg.colorDark

/-- The sequential variant's `shapes` string, one per-pixel shape per dark
module, finder zones included (src/unnamed/part_000 lines 308-352). -/
def shapesSeq (cfg : StyleConfig) (size : Nat) (modules : List Bool) : List Shape :=
  (List.range size).flatMap fun r =>
    (List.range size).filterMap fun c =>
      if modules.getD (r * size + c) false then
        some (seqCellShape (seqCellStyle cfg (isFinder size r c)) cfg r c)
      else none

/-- Per-serial rendering in the sequential variant (src/unnamed/part_000
lines 237-389); it has no caption feature. -/
def processRecordSeqPlan (cfg : StyleConfig) (size : Nat) (modules : List Bool) :
    RenderPlan :=
  if fastPathSeq cfg then .fast cfg.format
  else .styled (shapesSeq cfg size modules) cfg.logoPresent none cfg.format

/-! ## Handler outcome -/

/-- The `X-Total-Count`, `X-Success-Count` and `X-Skipped-Count` response
headers (src/index.js lines 179-181). -/
def batchHeaders (rows : List (List CellValue)) (colIndex : Nat) :
    String × String × String :=
  (toString (rows.length - startIndex),
   toString (extract rows colIndex).validRecords.length,
   toString (extract rows colIndex).errors.length)

/-- Terminal outcome of a generation request that parsed its spreadsheet:
either the user-level 400 rejection or the streamed archive with its
metadata headers. -/
inductive GenerateOutcome (β : Type) where
  | badRequest (msg : String)
  | archiveStream (headers : String × String × String) (members : List (Member β))
deriving DecidableEq

/-- The `POST /api/generate` handler after extraction (src/index.js lines
163-396): empty accepted list means a 400 with the source's message and no
archive; otherwise the headers are set and the archive is streamed. -/
def generateResult {β : Type} (rows : List (List CellValue)) (colIndex : Nat)
    (cfg : StyleConfig) (render : String → Option β) : GenerateOutcome β :=
  let st := extract rows colIndex
  if st.validRecords.length = 0 then
    .badRequest "No valid records found in the selected column."
  else
    .archiveStream (batchHeaders rows colIndex)
      (archiveMembers st.validRecords render cfg.format
        (reportText (rows.length - startIndex) st.validRecords.length
          st.errors.length st.errors))

/-! ## Temporary-file cleanup

The handler holds up to two temporary files: the uploaded spreadsheet
(`filePath`) and the uploaded logo (`logoPath`).  Cleanup code appears in
four places of src/index.js: the no-valid-records branch (line 164,
`if (filePath) fs.unlinkSync(filePath)` — the logo is not touched), the
`archive.on('end')` handler (lines 194-197), the `res.on('close')` handler
(lines 200-203) — both guarded by `fs.existsSync` — and the outer `catch`
(lines 400-402, spreadsheet only, guarded by `fs.existsSync`).  Each exit
path of the handler therefore runs a fixed sequence of unlink actions;
on normal completion the archive `end` event fires and the response
`close` event follows it, so both handler bodies run. -/

/-- The two temporary files. -/
inductive TempFile where
  | file : TempFile
  | logo : TempFile
deriving DecidableEq, Repr, Fintype

/-- One cleanup action as written in the source. -/
inductive CleanupAction where
  | unlinkFile : CleanupAction
  | unlinkFileIfExists : CleanupAction
  | unlinkLogoIfExists : CleanupAction
deriving DecidableEq, Repr

/-- The exit paths named by the specification for a request that acquired
its temporary files. -/
inductive ExitPath where
  | normalCompletion : ExitPath
  | noValidRecords : ExitPath
  | internalError : ExitPath
  | archiveError : ExitPath
  | earlyClose : ExitPath
deriving DecidableEq, Repr, Fintype

/-- The unlink sequence the source runs on each exit path:
no-valid-records runs only line 164; the outer catch runs only lines
400-402; normal completion runs the `end` handler then the `close`
handler; an archive error is signalled on the stream and cleanup happens
when the response eventually closes; an early sink closure runs the
`close` handler. -/
def pathActions : ExitPath → List CleanupAction
  | .noValidRecords => [.unlinkFile]
  | .internalError => [.unlinkFileIfExists]
  | .normalCompletion => [.unlinkFileIfExists, .unlinkLogoIfExists,
                          .unlinkFileIfExists, .unlinkLogoIfExists]
  | .archiveError => [.unlinkFileIfExists, .unlinkLogoIfExists]
  | .earlyClose => [.unlinkFileIfExists, .unlinkLogoIfExists]

/-- On-disk state of the two uploads. -/
structure FsState where
  fileOnDisk : Bool
  logoOnDisk : Bool
deriving DecidableEq, Repr

/-- Run the cleanup actions over the file-system state, collecting each
successful unlink (the `fs.existsSync` guard makes a second unlink of the
same path a no-op; `logoPath === null` and a missing logo file coincide in
the `logoOnDisk` flag). -/
def runActions : List CleanupAction → FsState → List TempFile
  | [], _ => []
  | a :: rest, st =>
    match a with
    | .unlinkFile =>
      TempFile.file :: runActions rest { st with fileOnDisk := false }
    | .unlinkFileIfExists =>
      if st.fileOnDisk then
        TempFile.file :: runActions rest { st with fileOnDisk := false }
      else runActions rest st
    | .unlinkLogoIfExists =>
      if st.logoOnDisk then
        TempFile.logo :: runActions rest { st with logoOnDisk := false }
      else runActions rest st

/-- The files actually released on an exit path, given whether a logo was
uploaded. -/
def releasedFiles (p : ExitPath) (logoPresent : Bool) : List TempFile :=
  runActions (pathActions p) ⟨true, logoPresent⟩

/-! ## Specification-side characterizations of the extractor -/

/-- The stream of trimmed candidate strings: one per row whose selected
cell passes the emptiness check, in row order. -/
def candidates (colIndex : Nat) (rows : List (List CellValue)) : List String :=
  rows.filterMap fun row =>
    let c := cellAt row colIndex
    if isEmptyCell c then none else some (jsTrim (jsString c))

/-- First-occurrence deduplication stated independently of the extraction
loop: keep each value's first occurrence and delete every later one. -/
def keepFirsts (l : List String) : List String :=
  match l with
  | [] => []
  | x :: xs => x :: keepFirsts (xs.filter fun y => !(y == x))
termination_by l.length
decreasing_by
  simp only [List.length_cons]
  exact Nat.lt_succ_of_le (List.length_filter_le _ _)

/-- The accepted values contributed by a candidate stream when the strings
in `seen` have already been encountered. -/
def acceptStep : List String → List String → List String
  | _, [] => []
  | seen, v :: vs =>
    if seen.contains v then acceptStep seen vs
    else v :: acceptStep (seen ++ [v]) vs

/-- The ledger contributed by the remaining rows when the strings in
`seen` have already been encountered and the next row has index `i`. -/
def ledgerFrom (colIndex : Nat) : List String → Nat → List (List CellValue) →
    List LedgerEntry
  | _, _, [] => []
  | seen, i, row :: rest =>
    let c := cellAt row colIndex
    if isEmptyCell c then
      ⟨i + 1, .emptyValue, none⟩ :: ledgerFrom colIndex seen (i + 1) rest
    else
      let v := jsTrim (jsString c)
      if seen.contains v then
        ⟨i + 1, .duplicateValue, some v⟩ :: ledgerFrom colIndex seen (i + 1) rest
      else ledgerFrom colIndex (seen ++ [v]) (i + 1) rest

/-- Closed form of the extraction loop from an arbitrary state. -/
theorem extractGo_eq (colIndex : Nat) :
    ∀ (rows : List (List CellValue)) (i : Nat) (st : ExtractState),
    extractGo colIndex i st rows =
      ⟨st.validRecords ++ acceptStep st.seen (candidates colIndex rows),
       st.errors ++ ledgerFrom colIndex st.seen i rows,
       st.seen ++ acceptStep st.seen (candidates colIndex rows)⟩
  | [], i, st => by
    simp [extractGo, candidates, acceptStep, ledgerFrom]
  | row :: rest, i, st => by
    rw [extractGo]
    by_cases h : isEmptyCell (cellAt row colIndex) = true
    · have hpr : processRow colIndex st i row =
        { st with errors := st.errors ++ [⟨i + 1, .emptyValue, none⟩] } := by
        simp [processRow, h]
      rw [hpr, extractGo_eq colIndex rest]
      simp [candidates, ledgerFrom, List.filterMap_cons, h]
    · by_cases hs : st.seen.contains (jsTrim (jsString (cellAt row colIndex))) = true
      · have hm : jsTrim (jsString (cellAt row colIndex)) ∈ st.seen := by
          simpa using hs
        have hpr : processRow colIndex st i row =
          { st with errors := st.errors ++
              [⟨i + 1, .duplicateValue, some (jsTrim (jsString (cellAt row colIndex)))⟩] } := by
          simp [processRow, h, hs, hm]
        rw [hpr, extractGo_eq colIndex rest]
        simp [candidates, ledgerFrom, acceptStep, List.filterMap_cons, h, hs, hm]
      · have hm : jsTrim (jsString (cellAt row colIndex)) ∉ st.seen := by
          simpa using hs
        have hpr : processRow colIndex st i row =
          { st with
            seen := st.seen ++ [jsTrim (jsString (cellAt row colIndex))],
            validRecords := st.validRecords ++ [jsTrim (jsString (cellAt row colIndex))] } := by
          simp [processRow, h, hs, hm]
        rw [hpr, extractGo_eq colIndex rest]
        simp [candidates, ledgerFrom, acceptStep, List.filterMap_cons, h, hs, hm]

/-- The whole extraction in closed form. -/
theorem extract_eq (rows : List (List CellValue)) (colIndex : Nat) :
    extract rows colIndex =
      ⟨acceptStep [] (candidates colIndex rows),
       ledgerFrom colIndex [] 0 rows,
       acceptStep [] (candidates colIndex rows)⟩ := by
  simpa [extract, initState, startIndex] using
    extractGo_eq colIndex rows 0 initState

/-- Filtering out one more value commutes with excluding it via `seen`. -/
theorem filter_seen_append (seen : List String) (v : String) (vs : List String) :
    (vs.filter fun y => !(seen.contains y)).filter (fun y => !(y == v)) =
      vs.filter fun y => !((seen ++ [v]).contains y) := by
  rw [List.filter_filter]
  apply List.filter_congr
  intro y _
  by_cases hy : y = v <;> by_cases hys : y ∈ seen <;> simp [hy, hys]

/-- `acceptStep` is first-occurrence deduplication of the candidates not
yet seen. -/
theorem acceptStep_eq_keepFirsts :
    ∀ (l seen : List String),
    acceptStep seen l = keepFirsts (l.filter fun y => !(seen.contains y))
  | [], seen => by simp [acceptStep, keepFirsts]
  | v :: vs, seen => by
    by_cases hv : v ∈ seen
    · have hc : seen.contains v = true := by simpa using hv
      rw [acceptStep]
      simp only [hc, if_true]
      rw [acceptStep_eq_keepFirsts vs seen]
      congr 1
      simp [List.filter_cons, hc, hv]
    · have hc : seen.contains v = false := by simpa using hv
      rw [acceptStep]
      simp only [hc, Bool.false_eq_true, if_false]
      rw [acceptStep_eq_keepFirsts vs (seen ++ [v])]
      have hfc : (v :: vs).filter (fun y => !(seen.contains y)) =
          v :: vs.filter fun y => !(seen.contains y) := by
        simp [List.filter_cons, hc, hv]
      rw [hfc, keepFirsts, filter_seen_append]

/-- Members of `keepFirsts l` come from `l`. -/
theorem mem_keepFirsts : ∀ (l : List String) (x : String), x ∈ keepFirsts l → x ∈ l
  | [], x, h => by rw [keepFirsts] at h; exact absurd h (List.not_mem_nil x)
  | v :: vs, x, h => by
    rw [keepFirsts] at h
    rcases List.mem_cons.mp h with h1 | h2
    · simp [h1]
    · have hx := mem_keepFirsts (vs.filter fun y => !(y == v)) x h2
      have := List.mem_of_mem_filter hx
      simp [this]
termination_by l => l.length
decreasing_by
  simp only [List.length_cons]
  exact Nat.lt_succ_of_le (List.length_filter_le _ _)

/-- `keepFirsts` produces a duplicate-free list. -/
theorem keepFirsts_nodup : ∀ l : List String, (keepFirsts l).Nodup
  | [] => by simp [keepFirsts]
  | v :: vs => by
    rw [keepFirsts]
    refine List.nodup_cons.mpr ⟨?_, keepFirsts_nodup _⟩
    intro hmem
    have hv := mem_keepFirsts _ _ hmem
    have := List.of_mem_filter hv
    simp at this
termination_by l => l.length
decreasing_by
  simp only [List.length_cons]
  exact Nat.lt_succ_of_le (List.length_filter_le _ _)

/-- Dropping a prefix twice drops it once. -/
theorem dropWhile_idem (p : Char → Bool) :
    ∀ l : List Char, (l.dropWhile p).dropWhile p = l.dropWhile p
  | [] => rfl
  | a :: l => by
    by_cases h : p a = true
    · simp only [List.dropWhile_cons, h, if_true]
      exact dropWhile_idem p l
    · simp [List.dropWhile_cons, h]

/-- A list fixed by `dropWhile p` stays fixed after `dropTrail p`. -/
theorem dropWhile_fix_dropTrail (p : Char → Bool) (l : List Char)
    (h : l.dropWhile p = l) : (dropTrail p l).dropWhile p = dropTrail p l := by
  cases l with
  | nil => rfl
  | cons a t =>
    have ha : p a = false := by
      by_contra hcon
      have ha' : p a = true := by
        cases hpa : p a
        · exact absurd hpa hcon
        · rfl
      rw [List.dropWhile_cons, ha', if_pos rfl] at h
      have hlen := congrArg List.length h
      simp only [List.length_cons] at hlen
      have hle := (List.dropWhile_sublist (l := t) (p := p)).length_le
      omega
    unfold dropTrail
    rw [List.reverse_cons, List.dropWhile_append]
    by_cases he : (t.reverse.dropWhile p).isEmpty = true
    · simp only [he, if_true]
      simp [List.dropWhile_cons, ha]
    · simp only [he, Bool.false_eq_true, if_false]
      rw [List.reverse_append]
      simp [List.dropWhile_cons, ha]

/-- Dropping a suffix twice drops it once. -/
theorem dropTrail_idem (p : Char → Bool) (l : List Char) :
    dropTrail p (dropTrail p l) = dropTrail p l := by
  unfold dropTrail
  rw [List.reverse_reverse, dropWhile_idem]

/-- `trim` is idempotent. -/
theorem trimChars_idem (l : List Char) : trimChars (trimChars l) = trimChars l := by
  unfold trimChars
  rw [dropWhile_fix_dropTrail isJSSpace _ (dropWhile_idem isJSSpace l)]
  exact dropTrail_idem isJSSpace _

/-- `s.trim().trim() === s.trim()`. -/
theorem jsTrim_idem (s : String) : jsTrim (jsTrim s) = jsTrim s := by
  unfold jsTrim
  exact congrArg String.mk (trimChars_idem s.data)

/-- A non-empty cell whose trimmed value has already occurred — either
among `seen` or as an earlier candidate — always yields a `DuplicateValue`
ledger entry for its own (1-indexed) row. -/
theorem ledgerFrom_dup (colIndex : Nat) :
    ∀ (rows : List (List CellValue)) (seen : List String) (i₀ i : Nat),
    i < rows.length →
    isEmptyCell (cellAt (rows.getD i []) colIndex) = false →
    (jsTrim (jsString (cellAt (rows.getD i []) colIndex)) ∈ seen ∨
     jsTrim (jsString (cellAt (rows.getD i []) colIndex)) ∈
       candidates colIndex (rows.take i)) →
    (⟨i₀ + i + 1, Reason.duplicateValue,
       some (jsTrim (jsString (cellAt (rows.getD i []) colIndex)))⟩ : LedgerEntry)
      ∈ ledgerFrom colIndex seen i₀ rows
  | [], _, _, i, h, _, _ => absurd h (by simp)
  | row :: rest, seen, i₀, 0, _, hne, hmem => by
    have hv : jsTrim (jsString (cellAt row colIndex)) ∈ seen := by
      rcases hmem with hm | hm
      · exact hm
      · simp [candidates] at hm
    have hc : seen.contains (jsTrim (jsString (cellAt row colIndex))) = true := by
      simpa using hv
    rw [ledgerFrom]
    simp only [List.getD_cons_zero] at hne ⊢
    simp only [hne, Bool.false_eq_true, if_false, hc, if_true]
    exact List.mem_cons_self _ _
  | row :: rest, seen, i₀, j + 1, hlen, hne, hmem => by
    simp only [List.getD_cons_succ] at hne hmem ⊢
    have hlen' : j < rest.length := by
      simp only [List.length_cons] at hlen
      omega
    have hidx : i₀ + (j + 1) + 1 = (i₀ + 1) + j + 1 := by omega
    rw [ledgerFrom]
    by_cases hc : isEmptyCell (cellAt row colIndex) = true
    · simp only [hc, if_true]
      have hmem' : jsTrim (jsString (cellAt (rest.getD j []) colIndex)) ∈ seen ∨
          jsTrim (jsString (cellAt (rest.getD j []) colIndex)) ∈
            candidates colIndex (rest.take j) := by
        rcases hmem with hm | hm
        · exact Or.inl hm
        · refine Or.inr ?_
          simpa [candidates, List.take_succ_cons, List.filterMap_cons, hc] using hm
      have ih := ledgerFrom_dup colIndex rest seen (i₀ + 1) j hlen' hne hmem'
      rw [hidx]
      exact List.mem_cons_of_mem _ ih
    · simp only [hc, Bool.false_eq_true, if_false]
      by_cases hs : jsTrim (jsString (cellAt row colIndex)) ∈ seen
      · have hsc : seen.contains (jsTrim (jsString (cellAt row colIndex))) = true := by
          simpa using hs
        simp only [hsc, if_true]
        have hmem' : jsTrim (jsString (cellAt (rest.getD j []) colIndex)) ∈ seen ∨
            jsTrim (jsString (cellAt (rest.getD j []) colIndex)) ∈
              candidates colIndex (rest.take j) := by
          rcases hmem with hm | hm
          · exact Or.inl hm
          · rw [List.take_succ_cons] at hm
            simp only [candidates, List.filterMap_cons, hc, Bool.false_eq_true,
              if_false] at hm
            rcases List.mem_cons.mp hm with he | hm'
            · exact Or.inl (he ▸ hs)
            · exact Or.inr hm'
        have ih := ledgerFrom_dup colIndex rest seen (i₀ + 1) j hlen' hne hmem'
        rw [hidx]
        exact List.mem_cons_of_mem _ ih
      · have hsc : seen.contains (jsTrim (jsString (cellAt row colIndex))) = false := by
          simpa using hs
        simp only [hsc, Bool.false_eq_true, if_false]
        have hmem' : jsTrim (jsString (cellAt (rest.getD j []) colIndex)) ∈
            (seen ++ [jsTrim (jsString (cellAt row colIndex))]) ∨
            jsTrim (jsString (cellAt (rest.getD j []) colIndex)) ∈
              candidates colIndex (rest.take j) := by
          rcases hmem with hm | hm
          · exact Or.inl (List.mem_append_left _ hm)
          · rw [List.take_succ_cons] at hm
            simp only [candidates, List.filterMap_cons, hc, Bool.false_eq_true,
              if_false] at hm
            rcases List.mem_cons.mp hm with he | hm'
            · exact Or.inl (List.mem_append_right _ (by simpa using he))
            · exact Or.inr hm'
        have ih := ledgerFrom_dup colIndex rest
          (seen ++ [jsTrim (jsString (cellAt row colIndex))]) (i₀ + 1) j hlen' hne hmem'
        rw [hidx]
        exact ih

/-- Each processed row contributes exactly one element, either to the
accepted list or to the ledger. -/
theorem extractGo_count (colIndex : Nat) :
    ∀ (rows : List (List CellValue)) (i : Nat) (st : ExtractState),
    (extractGo colIndex i st rows).validRecords.length +
      (extractGo colIndex i st rows).errors.length =
    st.validRecords.length + st.errors.length + rows.length
  | [], i, st => by simp [extractGo]
  | row :: rest, i, st => by
    rw [extractGo, extractGo_count colIndex rest (i + 1) (processRow colIndex st i row)]
    unfold processRow
    by_cases h : isEmptyCell (cellAt row colIndex) = true
    · simp only [h, if_true]
      simp
      omega
    · by_cases hs : st.seen.contains (jsTrim (jsString (cellAt row colIndex))) = true
      · have hm : jsTrim (jsString (cellAt row colIndex)) ∈ st.seen := by simpa using hs
        simp only [h, Bool.false_eq_true, if_false]
        simp [hm]
        omega
      · have hm : jsTrim (jsString (cellAt row colIndex)) ∉ st.seen := by simpa using hs
        simp only [h, Bool.false_eq_true, if_false]
        simp [hm]
        omega

/-- Every candidate string is already trimmed. -/
theorem mem_candidates_trimmed (colIndex : Nat) (rows : List (List CellValue))
    (v : String) (hv : v ∈ candidates colIndex rows) : jsTrim v = v := by
  simp only [candidates, List.mem_filterMap] at hv
  obtain ⟨row, _, hrow⟩ := hv
  by_cases h : isEmptyCell (cellAt row colIndex) = true
  · simp [h] at hrow
  · simp only [h, Bool.false_eq_true, if_false, Option.some.injEq] at hrow
    rw [← hrow]
    exact jsTrim_idem _

/-- The accepted list is first-occurrence deduplication of the candidate
stream. -/
theorem extract_validRecords (rows : List (List CellValue)) (colIndex : Nat) :
    (extract rows colIndex).validRecords = keepFirsts (candidates colIndex rows) := by
  rw [extract_eq]
  show acceptStep [] (candidates colIndex rows) = _
  rw [acceptStep_eq_keepFirsts]
  congr 1
  simp

/-- C3 counterexample: a whitespace-only cell passes the pre-trim
emptiness check and its trimmed value — the empty string — is accepted, so
not every accepted identifier is non-empty. -/
theorem c3_counterexample :
    (extract [[CellValue.str " "]] 0).validRecords = [""]
    ∧ ((extract [[CellValue.str " "]] 0).validRecords.all fun v => !(v == "")) = false := by
  decide

/-- C3 (amended): every identifier accepted by the Record Extractor is a
trimmed string — though it may be the empty string when the cell held only
whitespace, because the emptiness check precedes trimming — the accepted
list contains no duplicates under case-sensitive exact match, identifiers
appear in first-seen order (the list is first-occurrence deduplication of
the candidate stream), and a value that reappears after a previous
occurrence always produces a `DuplicateValue` ledger entry and is never
added to the accepted list. -/
theorem c3_extractor_invariants_amended (rows : List (List CellValue)) (colIndex : Nat) :
    ((extract rows colIndex).validRecords.all fun v => jsTrim v == v) = true
    ∧ (extract rows colIndex).validRecords.Nodup
    ∧ (extract rows colIndex).validRecords = keepFirsts (candidates colIndex rows)
    ∧ ∀ i : Nat, i < rows.length →
        isEmptyCell (cellAt (rows.getD i []) colIndex) = false →
        jsTrim (jsString (cellAt (rows.getD i []) colIndex)) ∈
          candidates colIndex (rows.take i) →
        (⟨i + 1, Reason.duplicateValue,
           some (jsTrim (jsString (cellAt (rows.getD i []) colIndex)))⟩ : LedgerEntry)
          ∈ (extract rows colIndex).errors := by
  have hacc := extract_validRecords rows colIndex
  refine ⟨?_, ?_, hacc, ?_⟩
  · rw [List.all_eq_true]
    intro v hv
    have h1 := mem_keepFirsts _ _ (hacc ▸ hv)
    have h2 := mem_candidates_trimmed colIndex rows v h1
    simpa using h2
  · rw [hacc]
    exact keepFirsts_nodup _
  · intro i hi hne hmem
    have herr : (extract rows colIndex).errors = ledgerFrom colIndex [] 0 rows := by
      rw [extract_eq]
    rw [herr]
    have h := ledgerFrom_dup colIndex rows [] 0 i hi hne (Or.inr hmem)
    simpa using h

/-- C3 witness: on the batch `["A", "A"]` the second row (1-indexed row 2)
yields a `DuplicateValue` entry for value `"A"`. -/
theorem c3_extractor_invariants_witness :
    (⟨2, Reason.duplicateValue, some "A"⟩ : LedgerEntry) ∈
      (extract [[CellValue.str "A"], [CellValue.str "A"]] 0).errors := by
  have h := (c3_extractor_invariants_amended [[CellValue.str "A"], [CellValue.str "A"]] 0).2.2.2
    1 (by decide) (by decide) (by decide)
  exact h

/-- C4: for every row sequence, accepted identifiers plus ledger entries
equal the rows processed, and exactly these three counts are surfaced as
the `X-Total-Count`, `X-Success-Count` and `X-Skipped-Count` metadata. -/
theorem c4_count_conservation (rows : List (List CellValue)) (colIndex : Nat) :
    (extract rows colIndex).validRecords.length +
        (extract rows colIndex).errors.length = rows.length
    ∧ batchHeaders rows colIndex =
        (toString rows.length,
         toString (extract rows colIndex).validRecords.length,
         toString (extract rows colIndex).errors.length) := by
  constructor
  · have h := extractGo_count colIndex rows 0 initState
    simpa [extract, initState, startIndex] using h
  · simp [batchHeaders, startIndex]

/-- Processing chunk by chunk and concatenating the per-chunk results in
chunk order is the same as one pass over the whole list: chunk boundaries
have no effect on the emitted sequence. -/
theorem chunksOf_flatMap_filterMap {α γ : Type} (f : α → Option γ) :
    ∀ l : List α, ((chunksOf l).flatMap fun c => c.filterMap f) = l.filterMap f
  | [] => by simp [chunksOf]
  | x :: xs => by
    rw [chunksOf]
    rw [List.flatMap_cons,
      chunksOf_flatMap_filterMap f (xs.drop (CONCURRENCY_LIMIT - 1))]
    rw [← List.filterMap_append]
    congr 1
    rw [List.cons_append, List.take_append_drop]
termination_by l => l.length
decreasing_by simp [List.length_drop]; omega

/-- Closed form of the chunked pipeline's archive: the report member
followed by one image per successfully rendered record, in original
accepted order. -/
theorem archiveMembers_eq {β : Type} (records : List String)
    (render : String → Option β) (format report : String) :
    archiveMembers records render format report =
      Member.text "report.txt" report ::
        records.filterMap fun serial =>
          (render serial).map fun buf =>
            Member.image (serial ++ "." ++ extOf format) buf := by
  unfold archiveMembers chunkResults
  congr 1
  have hstep : ∀ chunk : List String,
      ((chunk.map fun s => (render s).map fun b => (s, b)).filterMap fun r =>
        r.map fun p => Member.image (p.1 ++ "." ++ extOf format) p.2) =
      chunk.filterMap fun serial => (render serial).map fun buf =>
        Member.image (serial ++ "." ++ extOf format) buf := by
    intro chunk
    induction chunk with
    | nil => rfl
    | cons s t ih =>
      simp only [List.map_cons, List.filterMap_cons]
      cases hr : render s <;> simp [hr, ih]
  simp only [hstep]
  exact chunksOf_flatMap_filterMap _ records

/-- String concatenation cancels on the right. -/
theorem string_append_right_cancel (s t u : String) (h : s ++ u = t ++ u) :
    s = t := by
  have hd := congrArg String.data h
  rw [String.data_append, String.data_append] at hd
  have := List.append_cancel_right hd
  cases s
  cases t
  exact congrArg String.mk this

/-- Rendering every element of a list successfully keeps its length. -/
theorem length_filterMap_all_some {α γ : Type} (f : α → Option γ) :
    ∀ l : List α, (∀ s ∈ l, (f s).isSome) → (l.filterMap f).length = l.length
  | [], _ => rfl
  | a :: t, h => by
    have ha := h a (List.mem_cons_self a t)
    obtain ⟨b, hb⟩ := Option.isSome_iff_exists.mp ha
    simp only [List.filterMap_cons, hb, List.length_cons]
    rw [length_filterMap_all_some f t fun s hs => h s (List.mem_cons_of_mem a hs)]

/-- With exactly one failing element, the filtered output is one shorter. -/
theorem length_filterMap_one_none {α γ : Type} (f : α → Option γ) :
    ∀ (l : List α) (s₀ : α), l.Nodup → s₀ ∈ l → f s₀ = none →
    (∀ s ∈ l, s ≠ s₀ → (f s).isSome) →
    (l.filterMap f).length + 1 = l.length
  | [], s₀, _, hmem, _, _ => absurd hmem (List.not_mem_nil s₀)
  | a :: t, s₀, hnd, hmem, hnone, hok => by
    rcases List.mem_cons.mp hmem with he | hm
    · have hfa : f a = none := he ▸ hnone
      have hnotin : a ∉ t := (List.nodup_cons.mp hnd).1
      simp only [List.filterMap_cons, hfa, List.length_cons]
      rw [length_filterMap_all_some f t]
      intro s hs
      refine hok s (List.mem_cons_of_mem a hs) fun hsa => hnotin ?_
      rw [hsa, he] at hs
      exact hs
    · have hne : a ≠ s₀ := by
        intro he'
        rw [he'] at hnd
        exact (List.nodup_cons.mp hnd).1 hm
      have ha := hok a (List.mem_cons_self a t) hne
      obtain ⟨b, hb⟩ := Option.isSome_iff_exists.mp ha
      simp only [List.filterMap_cons, hb, List.length_cons]
      rw [← length_filterMap_one_none f t s₀ (List.nodup_cons.mp hnd).2 hm hnone
        fun s hs hsne => hok s (List.mem_cons_of_mem a hs) hsne]

/-- A single failing render aborts the sequential variant's image loop. -/
theorem seqImages_none {β : Type} (render : String → Option β) (format : String) :
    ∀ (l : List String) (s₀ : String), s₀ ∈ l → render s₀ = none →
    seqImages render format l = none
  | [], s₀, h, _ => absurd h (List.not_mem_nil s₀)
  | r :: rest, s₀, h, hf => by
    rw [seqImages]
    rcases List.mem_cons.mp h with he | hm
    · rw [← he, hf]
      rfl
    · cases hr : render r
      · rfl
      · rw [seqImages_none render format rest s₀ hm hf]
        rfl

/-- C1: for a non-empty accepted list, the archive starts with the
plain-text report member `report.txt` and continues with exactly one image
member per successfully rendered identifier, named
`<identifier>.<png-or-jpg>` by the configured format, in original
accepted-identifier order (`Promise.all` stores each task's result at the
task's input index, so completion order cannot reorder the output). -/
theorem c1_archive_order {β : Type} (records : List String)
    (render : String → Option β) (format report : String)
    (_h : records ≠ []) :
    archiveMembers records render format report =
      Member.text "report.txt" report ::
        records.filterMap fun serial =>
          (render serial).map fun buf =>
            Member.image
              (serial ++ "." ++ (if format = "png" then "png" else "jpg")) buf := by
  rw [archiveMembers_eq]
  have hext : extOf format = if format = "png" then "png" else "jpg" := by
    unfold extOf
    by_cases hf : format = "png" <;> simp [hf]
  simp only [hext]

/-- C1 witness: a two-record png batch with an always-succeeding renderer. -/
theorem c1_archive_order_witness :
    archiveMembers ["A", "B"] (fun s => some s) "png" "R" =
      [Member.text "report.txt" "R",
       Member.image "A.png" "A", Member.image "B.png" "B"] := by
  rw [c1_archive_order ["A", "B"] (fun s => some s) "png" "R" (by decide)]
  rfl

/-- C2 counterexample: in the sequential variant a single throwing render
(identifier `"B"` of the batch `["A", "B"]`) aborts the per-serial loop
before `archive.finalize()`, so the batch does not complete with N−1 image
members. -/
theorem c2_counterexample :
    seqArchive ["A", "B"]
      (fun s => if s == "B" then (none : Option Nat) else some 0) "jpeg" "R" =
      none := by
  rfl

/-- C2 (amended): in the chunked pipeline a batch in which exactly one
identifier's render throws still completes — the archive holds the report
plus N−1 image members and no member for the failed identifier; in the
sequential variant the same failure aborts the loop and no completed
archive is produced. -/
theorem c2_fault_isolation_amended {β : Type} (records : List String)
    (render : String → Option β) (format report : String) (s₀ : String)
    (hnd : records.Nodup) (hmem : s₀ ∈ records) (hfail : render s₀ = none)
    (hok : ∀ s ∈ records, s ≠ s₀ → (render s).isSome) :
    (archiveMembers records render format report).length = records.length
    ∧ (∀ b : β, Member.image (s₀ ++ "." ++ extOf format) b ∉
        archiveMembers records render format report)
    ∧ seqArchive records render format report = none := by
  refine ⟨?_, ?_, ?_⟩
  · rw [archiveMembers_eq, List.length_cons]
    have hone := length_filterMap_one_none
      (fun serial => (render serial).map fun buf =>
        Member.image (serial ++ "." ++ extOf format) buf)
      records s₀ hnd hmem (by simp [hfail]) ?_
    · omega
    · intro s hs hsne
      obtain ⟨b, hb⟩ := Option.isSome_iff_exists.mp (hok s hs hsne)
      simp [hb]
  · intro b hb
    rw [archiveMembers_eq] at hb
    rcases List.mem_cons.mp hb with he | hm
    · exact Member.noConfusion he
    · rw [List.mem_filterMap] at hm
      obtain ⟨s, hs, hsome⟩ := hm
      cases hr : render s with
      | none => rw [hr] at hsome; exact absurd hsome (by simp)
      | some b' =>
        rw [hr] at hsome
        simp only [Option.map, Option.some.injEq, Member.image.injEq] at hsome
        have hseq : s = s₀ :=
          string_append_right_cancel s s₀ ("." ++ extOf format)
            (by rw [← String.append_assoc, ← String.append_assoc]; exact hsome.1)
        rw [hseq, hfail] at hr
        exact absurd hr (by simp)
  · unfold seqArchive
    rw [seqImages_none render format records s₀ hmem hfail]
    rfl

/-- C2 witness: the batch `["A", "B"]` whose renderer fails exactly on
`"B"`: the chunked archive has 2 members (report plus one image) while the
sequential variant aborts. -/
theorem c2_fault_isolation_witness :
    (archiveMembers ["A", "B"]
      (fun s => if s == "B" then (none : Option Nat) else some 0) "jpeg" "R").length = 2
    ∧ seqArchive ["A", "B"]
        (fun s => if s == "B" then (none : Option Nat) else some 0) "jpeg" "R" = none := by
  have h := c2_fault_isolation_amended ["A", "B"]
    (fun s => if s == "B" then (none : Option Nat) else some 0) "jpeg" "R" "B"
    (by decide) (by decide) (by decide) (by decide)
  exact ⟨h.1, h.2.2⟩

/-- C7: whenever extraction accepts no identifiers, the handler stops with
the user-level 400 rejection carrying the source's message — an
`InputError`, not a crash — and produces no archive members. -/
theorem c7_empty_batch_rejected {β : Type} (rows : List (List CellValue))
    (colIndex : Nat) (cfg : StyleConfig) (render : String → Option β)
    (h : (extract rows colIndex).validRecords = []) :
    generateResult rows colIndex cfg render =
      GenerateOutcome.badRequest "No valid records found in the selected column." := by
  unfold generateResult
  simp [h]

/-- C7 witness: a one-row batch whose only cell is the empty string. -/
theorem c7_empty_batch_rejected_witness :
    generateResult (β := Unit) [[CellValue.str ""]] 0 {} (fun _ => some ()) =
      GenerateOutcome.badRequest "No valid records found in the selected column." := by
  exact c7_empty_batch_rejected [[CellValue.str ""]] 0 {} (fun _ => some ()) (by decide)

/-- C10: only the exact values `undefined`, `null` and the empty string
produce an `EmptyValue` ledger entry; any other falsy cell — the number 0,
the boolean `false` — is accepted under its string coercion, and a
whitespace-only cell passes the emptiness check before trimming instead of
being recorded as `EmptyValue`. -/
theorem c10_empty_value_semantics (v : CellValue) :
    (isEmptyCell v = true ↔
      (v = CellValue.undefined ∨ v = CellValue.null ∨ v = CellValue.str ""))
    ∧ (isEmptyCell v = false →
        extract [[v]] 0 = ⟨[jsTrim (jsString v)], [], [jsTrim (jsString v)]⟩)
    ∧ (extract [[CellValue.num 0]] 0).validRecords = ["0"]
    ∧ (extract [[CellValue.boolean false]] 0).validRecords = ["false"]
    ∧ (extract [[CellValue.str "  "]] 0).validRecords = [""]
    ∧ (extract [[CellValue.str "  "]] 0).errors = [] := by
  refine ⟨?_, ?_, by decide, by decide, by decide, by decide⟩
  · cases v <;> simp [isEmptyCell]
  · intro h
    simp [extract, extractGo, processRow, initState, startIndex, cellAt, h]

/-- C10 witness: a numeric cell `7` is accepted and coerced to `"7"`. -/
theorem c10_empty_value_semantics_witness :
    extract [[CellValue.num 7]] 0 = ⟨["7"], [], ["7"]⟩ := by
  exact (c10_empty_value_semantics (CellValue.num 7)).2.1 (by decide)

/-- The chunked fast-path test, componentwise. -/
theorem fastPath_iff (cfg : StyleConfig) :
    fastPath cfg = true ↔
      (cfg.moduleStyle = "square" ∧ cfg.eyeStyle = "square" ∧
       cfg.logoPresent = false ∧ cfg.shouldShowText = false) := by
  simp [fastPath, and_assoc]

/-- The sequential fast-path test, componentwise. -/
theorem fastPathSeq_iff (cfg : StyleConfig) :
    fastPathSeq cfg = true ↔
      (cfg.moduleStyle = "square" ∧ cfg.eyeStyle = "square") := by
  simp [fastPathSeq]

/-- A square-module, square-eye configuration with an uploaded logo
(all other fields at their defaults, jpeg output). -/
def cfgLogoSquare : StyleConfig := { logoPresent := true }

/-- C5 counterexample: in the sequential variant the fast path tests only
the module and eye shapes, so a square/square batch with a supplied logo
still takes the fast standard-encoder path — which never composites the
logo — contradicting the claim that any configuration with a logo runs the
styled path. -/
theorem c5_counterexample :
    fastPathSeq cfgLogoSquare = true
    ∧ cfgLogoSquare.logoPresent = true
    ∧ processRecordSeqPlan cfgLogoSquare 21 [] = RenderPlan.fast "jpeg" := by
  decide

/-- C5 (amended): in the chunked pipeline the fast path is taken exactly
when module shape and eye shape are square, no logo is supplied and no
caption is requested, and a square/square configuration with a logo runs
the styled path with the logo composited; in the sequential variant the
fast path is taken whenever module and eye shapes are square, regardless
of logo (which that path does not composite). -/
theorem c5_fast_path_amended (cfg : StyleConfig) (size : Nat)
    (modules : List Bool) (serial : String) :
    (processRecordPlan cfg size modules serial = RenderPlan.fast cfg.format ↔
      (cfg.moduleStyle = "square" ∧ cfg.eyeStyle = "square" ∧
       cfg.logoPresent = false ∧ cfg.shouldShowText = false))
    ∧ (cfg.moduleStyle = "square" → cfg.eyeStyle = "square" →
        cfg.logoPresent = true →
        processRecordPlan cfg size modules serial =
          RenderPlan.styled (styledShapes cfg size modules) true
            (if cfg.shouldShowText then some (escapeSerial serial.data) else none)
            cfg.format)
    ∧ (processRecordSeqPlan cfg size modules = RenderPlan.fast cfg.format ↔
        (cfg.moduleStyle = "square" ∧ cfg.eyeStyle = "square")) := by
  refine ⟨?_, ?_, ?_⟩
  · rw [← fastPath_iff]
    by_cases hf : fastPath cfg = true
    · simp [processRecordPlan, hf]
    · simp [processRecordPlan, hf]
  · intro h1 h2 h3
    have hf : fastPath cfg = false := by
      simp [fastPath, h3]
    simp [processRecordPlan, hf, h3]
  · rw [← fastPathSeq_iff]
    by_cases hf : fastPathSeq cfg = true
    · simp [processRecordSeqPlan, hf]
    · simp [processRecordSeqPlan, hf]

/-- C5 witness: the square/square-with-logo configuration runs the styled
path of the chunked pipeline with the logo composited. -/
theorem c5_fast_path_witness :
    processRecordPlan cfgLogoSquare 21 [] "A" =
      RenderPlan.styled (styledShapes cfgLogoSquare 21 []) true none "jpeg" := by
  have h := (c5_fast_path_amended cfgLogoSquare 21 [] "A").2.1 rfl rfl rfl
  simpa [cfgLogoSquare] using h

/-- One row of the data-module pass, as filter-then-map over cell
coordinates. -/
theorem moduleRow_eq (cfg : StyleConfig) (size : Nat) (modules : List Bool) (r : Nat) :
    ∀ l : List Nat,
    (l.filterMap fun c =>
      if isFinder size r c then none
      else if modules.getD (r * size + c) false then some (moduleShape cfg r c)
      else none) =
    ((l.map fun c => (r, c)).filter fun p =>
      !isFinder size p.1 p.2 && modules.getD (p.1 * size + p.2) false).map
      fun p => moduleShape cfg p.1 p.2
  | [] => rfl
  | c :: t => by
    have ih := moduleRow_eq cfg size modules r t
    rw [List.filterMap_cons, List.map_cons, List.filter_cons]
    by_cases hf : isFinder size r c = true
    · rw [if_pos hf]
      have hcond : (!isFinder size r c && modules.getD (r * size + c) false) = false := by
        rw [hf]
        rfl
      rw [hcond, if_neg (by simp)]
      exact ih
    · have hfb : isFinder size r c = false := by
        cases hb : isFinder size r c
        · rfl
        · exact absurd hb hf
      rw [if_neg hf]
      by_cases hm : modules.getD (r * size + c) false = true
      · rw [if_pos hm]
        have hcond : (!isFinder size r c && modules.getD (r * size + c) false) = true := by
          rw [hfb, hm]
          rfl
        rw [hcond, if_pos rfl, List.map_cons, ih]
      · have hmb : modules.getD (r * size + c) false = false := by
          cases hb : modules.getD (r * size + c) false
          · rfl
          · exact absurd hb hm
        rw [if_neg hm]
        have hcond : (!isFinder size r c && modules.getD (r * size + c) false) = false := by
          rw [hfb, hmb]
          rfl
        rw [hcond, if_neg (by simp)]
        exact ih

/-- The data-module pass draws exactly the dark cells outside the finder
zones, one shape per such cell, in row-major order. -/
theorem modulePass_product (cfg : StyleConfig) (size : Nat) (modules : List Bool) :
    modulePass cfg size modules =
      (((List.range size).flatMap fun r => (List.range size).map fun c => (r, c)).filter
        fun p => !isFinder size p.1 p.2 && modules.getD (p.1 * size + p.2) false).map
        fun p => moduleShape cfg p.1 p.2 := by
  unfold modulePass
  have haux : ∀ L : List Nat,
      (L.flatMap fun r => (List.range size).filterMap fun c =>
        if isFinder size r c then none
        else if modules.getD (r * size + c) false then some (moduleShape cfg r c)
        else none) =
      ((L.flatMap fun r => (List.range size).map fun c => (r, c)).filter
        fun p => !isFinder size p.1 p.2 && modules.getD (p.1 * size + p.2) false).map
        fun p => moduleShape cfg p.1 p.2 := by
    intro L
    induction L with
    | nil => rfl
    | cons r t ih =>
      simp only [List.flatMap_cons, List.filter_append, List.map_append]
      rw [moduleRow_eq, ih]
  exact haux (List.range size)

/-- Cancel a common rational offset on natural casts. -/
theorem natcast_add_cancel (a b : Nat) (q : ℚ) (h : (a : ℚ) + q = (b : ℚ) + q) :
    a = b :=
  Nat.cast_inj.mp (add_right_cancel h)

/-- Distinct cells get distinct shapes under any module style. -/
theorem moduleShape_inj (cfg : StyleConfig) (r c r' c' : Nat)
    (h : moduleShape cfg r c = moduleShape cfg r' c') : r = r' ∧ c = c' := by
  unfold moduleShape at h
  by_cases h1 : (cfg.moduleStyle == "dots") = true
  · rw [if_pos h1, if_pos h1] at h
    rw [Shape.circle.injEq] at h
    exact ⟨natcast_add_cancel _ _ _ h.2.1, natcast_add_cancel _ _ _ h.1⟩
  · rw [if_neg h1, if_neg h1] at h
    by_cases h2 : (cfg.moduleStyle == "rounded") = true
    · rw [if_pos h2, if_pos h2] at h
      rw [Shape.rect.injEq] at h
      exact ⟨natcast_add_cancel _ _ _ h.2.1, natcast_add_cancel _ _ _ h.1⟩
    · rw [if_neg h2, if_neg h2] at h
      rw [Shape.rect.injEq] at h
      exact ⟨Nat.cast_inj.mp h.2.1, Nat.cast_inj.mp h.1⟩

/-- No shape of the data-module pass sits on a finder-zone cell: modules
inside the three 7×7 zones are never drawn by the module loop, so they
cannot be double-drawn over the explicit eyes. -/
theorem modulePass_no_finder (cfg : StyleConfig) (size : Nat) (modules : List Bool)
    (r c : Nat) (hf : isFinder size r c = true) :
    moduleShape cfg r c ∉ modulePass cfg size modules := by
  intro hmem
  unfold modulePass at hmem
  rw [List.mem_flatMap] at hmem
  obtain ⟨r', _, hmem'⟩ := hmem
  rw [List.mem_filterMap] at hmem'
  obtain ⟨c', _, heq⟩ := hmem'
  by_cases hf' : isFinder size r' c' = true
  · rw [if_pos hf'] at heq
    exact Option.noConfusion heq
  · rw [if_neg hf'] at heq
    by_cases hm : modules.getD (r' * size + c') false = true
    · rw [if_pos hm] at heq
      have hrc := moduleShape_inj cfg r' c' r c (Option.some.inj heq)
      rw [hrc.1, hrc.2] at hf'
      exact hf' hf
    · rw [if_neg hm] at heq
      exact Option.noConfusion heq

/-- The sequential variant never emits a 7-unit-wide rectangle: its finder
treatment is per-pixel, with no explicit concentric eye shapes. -/
theorem shapesSeq_no_wide_rect (cfg : StyleConfig) (size : Nat) (modules : List Bool)
    (x y rx : ℚ) (fill : String) :
    Shape.rect x y 7 7 rx fill ∉ shapesSeq cfg size modules := by
  intro hmem
  unfold shapesSeq at hmem
  rw [List.mem_flatMap] at hmem
  obtain ⟨r, _, hmem'⟩ := hmem
  rw [List.mem_filterMap] at hmem'
  obtain ⟨c, _, heq⟩ := hmem'
  by_cases hm : modules.getD (r * size + c) false = true
  · rw [if_pos hm] at heq
    have h := Option.some.inj heq
    unfold seqCellShape at h
    by_cases h1 : (seqCellStyle cfg (isFinder size r c) == "dots") = true
    · rw [if_pos h1] at h
      exact Shape.noConfusion h
    · rw [if_neg h1] at h
      by_cases h2 : (seqCellStyle cfg (isFinder size r c) == "rounded") = true
      · rw [if_pos h2, Shape.rect.injEq] at h
        have h8 : (0.8 : ℚ) = 7 := h.2.2.1
        norm_num at h8
      · rw [if_neg h2, Shape.rect.injEq] at h
        have h8 : (1 : ℚ) = 7 := h.2.2.1
        norm_num at h8
  · rw [if_neg hm] at heq
    exact Option.noConfusion heq

/-- A default configuration with rounded finder eyes. -/
def cfgRoundedEyes : StyleConfig := { eyeStyle := "rounded" }

/-- The standard 7×7 finder pattern in local coordinates: dark ring border
and dark 3×3 core. -/
def finderLocalDark (r c : Nat) : Bool :=
  decide ((r = 0 ∨ r = 6 ∨ c = 0 ∨ c = 6) ∨ (2 ≤ r ∧ r ≤ 4 ∧ 2 ≤ c ∧ c ≤ 4))

/-- A 21×21 module matrix (row major) that is dark exactly on the three
standard finder patterns — the shape every version-1 QR matrix has at its
corners. -/
def mat21 : List Bool :=
  (List.range 21).flatMap fun r =>
    (List.range 21).map fun c =>
      if r < 7 ∧ c < 7 then finderLocalDark r c
      else if r < 7 ∧ 14 ≤ c then finderLocalDark r (c - 14)
      else if 14 ≤ r ∧ c < 7 then finderLocalDark (r - 14) c
      else false

/-- C6 counterexample: the sequential variant with rounded eye style draws
the finder area of the matrix per-pixel (here as 1×1 squares, since the
module style is square) and never emits the 7×7 rounded outer eye
rectangle the claim requires. -/
theorem c6_counterexample :
    (shapesSeq cfgRoundedEyes 21 mat21).count
        (Shape.rect 0 0 7 7 1.5 "#000000") = 0
    ∧ Shape.rect 0 0 1 1 0 "#000000" ∈ shapesSeq cfgRoundedEyes 21 mat21 := by
  set_option maxRecDepth 4000 in decide

/-- C6 (amended): in the chunked pipeline's styled path the three corner
finder patterns are drawn explicitly as three concentric shapes — outer
7×7 dark, middle 5×5 light, inner 3×3 dark — with corner radii 1.5/1/0.5
when the eye style is rounded and sharp (radius-0) rectangles when it is
square, and the data-module pass draws exactly the dark cells outside the
three 7×7 zones, so no finder-zone module is ever double-drawn; in the
sequential variant the finder zones are instead rendered per-pixel and no
concentric eye shape (no 7-unit-wide rectangle) is ever emitted. -/
theorem c6_finder_eyes_amended (cfg : StyleConfig) (size : Nat)
    (modules : List Bool) :
    (cfg.eyeStyle = "rounded" →
      styledShapes cfg size modules =
        [ Shape.rect 0 0 7 7 1.5 cfg.colorDark,
          Shape.rect 1 1 5 5 1 cfg.colorLight,
          Shape.rect 2 2 3 3 0.5 cfg.colorDark,
          Shape.rect ((size - 7 : Nat) : ℚ) 0 7 7 1.5 cfg.colorDark,
          Shape.rect (((size - 7 : Nat) : ℚ) + 1) 1 5 5 1 cfg.colorLight,
          Shape.rect (((size - 7 : Nat) : ℚ) + 2) 2 3 3 0.5 cfg.colorDark,
          Shape.rect 0 ((size - 7 : Nat) : ℚ) 7 7 1.5 cfg.colorDark,
          Shape.rect 1 (((size - 7 : Nat) : ℚ) + 1) 5 5 1 cfg.colorLight,
          Shape.rect 2 (((size - 7 : Nat) : ℚ) + 2) 3 3 0.5 cfg.colorDark ]
        ++ (((List.range size).flatMap fun r =>
              (List.range size).map fun c => (r, c)).filter
            fun p => !isFinder size p.1 p.2 &&
              modules.getD (p.1 * size + p.2) false).map
            fun p => moduleShape cfg p.1 p.2)
    ∧ (cfg.eyeStyle = "square" →
      styledShapes cfg size modules =
        [ Shape.rect 0 0 7 7 0 cfg.colorDark,
          Shape.rect 1 1 5 5 0 cfg.colorLight,
          Shape.rect 2 2 3 3 0 cfg.colorDark,
          Shape.rect ((size - 7 : Nat) : ℚ) 0 7 7 0 cfg.colorDark,
          Shape.rect (((size - 7 : Nat) : ℚ) + 1) 1 5 5 0 cfg.colorLight,
          Shape.rect (((size - 7 : Nat) : ℚ) + 2) 2 3 3 0 cfg.colorDark,
          Shape.rect 0 ((size - 7 : Nat) : ℚ) 7 7 0 cfg.colorDark,
          Shape.rect 1 (((size - 7 : Nat) : ℚ) + 1) 5 5 0 cfg.colorLight,
          Shape.rect 2 (((size - 7 : Nat) : ℚ) + 2) 3 3 0 cfg.colorDark ]
        ++ (((List.range size).flatMap fun r =>
              (List.range size).map fun c => (r, c)).filter
            fun p => !isFinder size p.1 p.2 &&
              modules.getD (p.1 * size + p.2) false).map
            fun p => moduleShape cfg p.1 p.2)
    ∧ (∀ r c : Nat, isFinder size r c = true →
        moduleShape cfg r c ∉ modulePass cfg size modules)
    ∧ (∀ (x y rx : ℚ) (fill : String),
        Shape.rect x y 7 7 rx fill ∉ shapesSeq cfg size modules) := by
  refine ⟨?_, ?_, ?_, ?_⟩
  · intro h
    unfold styledShapes
    rw [modulePass_product]
    congr 1
    have hb : (cfg.eyeStyle == "rounded") = true := by
      rw [h]
      decide
    simp [eyePass, eyePositions, eyeTriple, hb]
  · intro h
    unfold styledShapes
    rw [modulePass_product]
    congr 1
    have hb : (cfg.eyeStyle == "rounded") = false := by
      rw [h]
      decide
    simp [eyePass, eyePositions, eyeTriple, hb]
  · exact fun r c hf => modulePass_no_finder cfg size modules r c hf
  · exact fun x y rx fill => shapesSeq_no_wide_rect cfg size modules x y rx fill

/-- C6 witness: on the rounded-eye configuration and the 21×21
finder-pattern matrix, the styled pass opens with the three concentric
top-left eye rectangles with radii 1.5/1/0.5. -/
theorem c6_finder_eyes_witness :
    (styledShapes cfgRoundedEyes 21 mat21).take 3 =
      [Shape.rect 0 0 7 7 1.5 "#000000",
       Shape.rect 1 1 5 5 1 "#ffffff",
       Shape.rect 2 2 3 3 0.5 "#000000"] := by
  rw [(c6_finder_eyes_amended cfgRoundedEyes 21 mat21).1 rfl]
  rfl

/-- C8: on the no-valid-records exit path with a logo uploaded, only the
spreadsheet is released — the logo file is never unlinked (line 164 of
src/index.js cleans up `filePath` only, and the `end`/`close` handlers are
not yet installed), contradicting release-on-every-exit-path; the
at-most-once half of the claim does hold on every path thanks to the
`fs.existsSync` guards. -/
theorem c8_cleanup_logo_leak :
    releasedFiles ExitPath.noValidRecords true = [TempFile.file]
    ∧ (releasedFiles ExitPath.noValidRecords true).count TempFile.logo = 0
    ∧ releasedFiles ExitPath.normalCompletion true = [TempFile.file, TempFile.logo]
    ∧ ∀ (p : ExitPath) (b : Bool),
        (releasedFiles p b).count TempFile.file ≤ 1 ∧
        (releasedFiles p b).count TempFile.logo ≤ 1 := by
  decide

/-- Single-pass escaping of one character: the five XML-significant
characters map to their entities, everything else to itself. -/
def escChar (c : Char) : List Char :=
  if c == '&' then "&amp;".data
  else if c == '<' then "&lt;".data
  else if c == '>' then "&gt;".data
  else if c == '"' then "&quot;".data
  else if c == '\'' then "&apos;".data
  else [c]

/-- Entity decoding: reads back the five escapes, leaving every other
character unchanged — what a vector-markup consumer displays. -/
def decodeEntities : List Char → List Char
  | '&' :: 'a' :: 'm' :: 'p' :: ';' :: rest => '&' :: decodeEntities rest
  | '&' :: 'l' :: 't' :: ';' :: rest => '<' :: decodeEntities rest
  | '&' :: 'g' :: 't' :: ';' :: rest => '>' :: decodeEntities rest
  | '&' :: 'q' :: 'u' :: 'o' :: 't' :: ';' :: rest => '"' :: decodeEntities rest
  | '&' :: 'a' :: 'p' :: 'o' :: 's' :: ';' :: rest => '\'' :: decodeEntities rest
  | c :: rest => c :: decodeEntities rest
  | [] => []

/-- A global single-character replacement distributes over concatenation. -/
theorem replChar_append (p : Char) (r : List Char) :
    ∀ a b : List Char, replChar p r (a ++ b) = replChar p r a ++ replChar p r b
  | [], b => rfl
  | x :: a, b => by
    simp only [List.cons_append, replChar, List.append_eq]
    rw [replChar_append p r a b, List.append_assoc]

/-- The escape chain distributes over concatenation. -/
theorem escapeSerial_append (a b : List Char) :
    escapeSerial (a ++ b) = escapeSerial a ++ escapeSerial b := by
  unfold escapeSerial
  rw [replChar_append, replChar_append, replChar_append, replChar_append,
    replChar_append]

/-- On a single character the five sequential replacements agree with the
single-pass escape map: the ampersand pass runs first, so entities
introduced by later passes are never re-escaped. -/
theorem escapeSerial_single (c : Char) : escapeSerial [c] = escChar c := by
  by_cases h1 : c = '&'
  · rw [h1]
    decide
  · by_cases h2 : c = '<'
    · rw [h2]
      decide
    · by_cases h3 : c = '>'
      · rw [h3]
        decide
      · by_cases h4 : c = '"'
        · rw [h4]
          decide
        · by_cases h5 : c = '\''
          · rw [h5]
            decide
          · simp [escapeSerial, replChar, escChar, h1, h2, h3, h4, h5]

/-- The escape chain is the single-pass per-character escape. -/
theorem escapeSerial_eq_flatMap :
    ∀ s : List Char, escapeSerial s = s.flatMap escChar
  | [] => rfl
  | c :: t => by
    have h2 := escapeSerial_append [c] t
    simp only [List.singleton_append] at h2
    rw [h2, escapeSerial_single, List.flatMap_cons, escapeSerial_eq_flatMap t]

set_option maxHeartbeats 1000000 in
/-- A non-ampersand character at the head of the decoder's input is copied
verbatim. -/
theorem decodeEntities_cons_of_ne (c : Char) (rest : List Char) (h : ¬c = '&') :
    decodeEntities (c :: rest) = c :: decodeEntities rest := by
  rw [decodeEntities.eq_def]
  split
  · rename_i heq
    injection heq with h1 _
    exact absurd h1 h
  · rename_i heq
    injection heq with h1 _
    exact absurd h1 h
  · rename_i heq
    injection heq with h1 _
    exact absurd h1 h
  · rename_i heq
    injection heq with h1 _
    exact absurd h1 h
  · rename_i heq
    injection heq with h1 _
    exact absurd h1 h
  · rename_i c' rest' heq
    injection heq with h1 h2
    rw [h1, h2]
  · rename_i heq
    exact absurd heq (by simp)

/-- Decoding inverts the escape: the caption displays the literal
identifier characters. -/
theorem decodeEntities_escape : ∀ s : List Char,
    decodeEntities (s.flatMap escChar) = s
  | [] => rfl
  | c :: t => by
    rw [List.flatMap_cons]
    by_cases h1 : c = '&'
    · rw [h1]
      show '&' :: decodeEntities (t.flatMap escChar) = '&' :: t
      rw [decodeEntities_escape t]
    · by_cases h2 : c = '<'
      · rw [h2]
        show '<' :: decodeEntities (t.flatMap escChar) = '<' :: t
        rw [decodeEntities_escape t]
      · by_cases h3 : c = '>'
        · rw [h3]
          show '>' :: decodeEntities (t.flatMap escChar) = '>' :: t
          rw [decodeEntities_escape t]
        · by_cases h4 : c = '"'
          · rw [h4]
            show '"' :: decodeEntities (t.flatMap escChar) = '"' :: t
            rw [decodeEntities_escape t]
          · by_cases h5 : c = '\''
            · rw [h5]
              show '\'' :: decodeEntities (t.flatMap escChar) = '\'' :: t
              rw [decodeEntities_escape t]
            · have he : escChar c = [c] := by
                simp [escChar, h1, h2, h3, h4, h5]
              rw [he, List.singleton_append,
                decodeEntities_cons_of_ne c _ h1, decodeEntities_escape t]

/-- The escaped text contains no raw `<`, `>`, `"` or `'`: the markup
stays well-formed. -/
theorem escapeSerial_no_raw (s : List Char) :
    ∀ c ∈ escapeSerial s,
      (c == '<' || c == '>' || c == '"' || c == '\'') = false := by
  intro c hc
  rw [escapeSerial_eq_flatMap, List.mem_flatMap] at hc
  obtain ⟨a, _, hca⟩ := hc
  by_cases h1 : a = '&'
  · rw [h1, show escChar '&' = ['&', 'a', 'm', 'p', ';'] from rfl] at hca
    simp only [List.mem_cons, List.not_mem_nil, or_false] at hca
    rcases hca with rfl | rfl | rfl | rfl | rfl <;> decide
  · by_cases h2 : a = '<'
    · rw [h2, show escChar '<' = ['&', 'l', 't', ';'] from rfl] at hca
      simp only [List.mem_cons, List.not_mem_nil, or_false] at hca
      rcases hca with rfl | rfl | rfl | rfl <;> decide
    · by_cases h3 : a = '>'
      · rw [h3, show escChar '>' = ['&', 'g', 't', ';'] from rfl] at hca
        simp only [List.mem_cons, List.not_mem_nil, or_false] at hca
        rcases hca with rfl | rfl | rfl | rfl <;> decide
      · by_cases h4 : a = '"'
        · rw [h4, show escChar '"' = ['&', 'q', 'u', 'o', 't', ';'] from rfl] at hca
          simp only [List.mem_cons, List.not_mem_nil, or_false] at hca
          rcases hca with rfl | rfl | rfl | rfl | rfl | rfl <;> decide
        · by_cases h5 : a = '\''
          · rw [h5, show escChar '\'' = ['&', 'a', 'p', 'o', 's', ';'] from rfl] at hca
            simp only [List.mem_cons, List.not_mem_nil, or_false] at hca
            rcases hca with rfl | rfl | rfl | rfl | rfl | rfl <;> decide
          · have he : escChar a = [a] := by
              simp [escChar, h1, h2, h3, h4, h5]
            rw [he] at hca
            rcases List.mem_singleton.mp hca with rfl
            simp [h2, h3, h4, h5]

/-- C9: whenever the caption overlay is enabled, the identifier embedded
in the caption's text node is the escape of the serial for exactly the
five XML-significant characters with the ampersand pass first (equal to
the single-pass per-character escape, so no double escaping), the result
contains no raw `<`, `>`, `"` or `'`, and entity decoding restores the
identifier — the caption displays the literal characters. -/
theorem c9_xml_escaping (cfg : StyleConfig) (size : Nat) (modules : List Bool)
    (serial : String) (h : cfg.shouldShowText = true) :
    processRecordPlan cfg size modules serial =
      RenderPlan.styled (styledShapes cfg size modules) cfg.logoPresent
        (some (escapeSerial serial.data)) cfg.format
    ∧ escapeSerial serial.data = serial.data.flatMap escChar
    ∧ decodeEntities (escapeSerial serial.data) = serial.data
    ∧ ∀ c ∈ escapeSerial serial.data,
        (c == '<' || c == '>' || c == '"' || c == '\'') = false := by
  have hf : fastPath cfg = false := by
    simp [fastPath, h]
  refine ⟨?_, escapeSerial_eq_flatMap serial.data, ?_, escapeSerial_no_raw serial.data⟩
  · simp [processRecordPlan, hf, h]
  · rw [escapeSerial_eq_flatMap]
    exact decodeEntities_escape serial.data

/-- C9 witness: the serial `<&>` is escaped to `&lt;&amp;&gt;` in the
caption plan and decodes back to itself. -/
theorem c9_xml_escaping_witness :
    escapeSerial "<&>".data = "&lt;&amp;&gt;".data
    ∧ decodeEntities (escapeSerial "<&>".data) = "<&>".data := by
  have h := c9_xml_escaping { shouldShowText := true } 21 [] "<&>" rfl
  exact ⟨by decide, h.2.2.1⟩
